import Mathlib

/-!
Verification development for the ai-chat-export-parser service (`src/server.mjs`).

The JavaScript source is shallowly embedded here:
* JSON data trees become the inductive `Json`; JavaScript coercions
  (`String(x)`, truthiness, `??`, `||`, `Array.prototype.join`) are modelled
  explicitly.
* The cheerio/DOM layer is modelled by an explicit node tree `Dnode`; pages
  fetched over the network are modelled as structures holding the pre-parsed
  components the extractors consume (the `__NEXT_DATA__` payload, generic JSON
  blobs, the DOM, title/model meta tags), since regex/HTML scavenging of raw
  bytes is not itself under test.
* Network and browser effects are oracles passed to `ingestCore` as `Except`
  values; consulting an oracle models performing that network/render step.
* JavaScript strings of the source are Lean `String`s (code points instead of
  UTF-16 units; the difference is immaterial to every property below).
-/

namespace ChatExport

/-- A JSON value as produced by `JSON.parse` in the source. Numbers are
modelled as integers (no claim depends on float behaviour). -/
inductive Json where
  | null
  | bool (b : Bool)
  | num (n : Int)
  | str (s : String)
  | arr (elems : List Json)
  | obj (fields : List (String × Json))
deriving Repr

/-- JavaScript truthiness of a JSON value (`!x` in the source). -/
def truthy : Json → Bool
  | .null => false
  | .bool b => b
  | .num n => !(n == 0)
  | .str s => !(s == "")
  | .arr _ => true
  | .obj _ => true

/-- Truthiness of an optional value; `none` models `undefined`. -/
def otruthy : Option Json → Bool
  | some j => truthy j
  | none => false

/-- Nullish test used by the `??` operator: `undefined` or `null`. -/
def nullish : Option Json → Bool
  | none => true
  | some .null => true
  | some _ => false

/-- Property access `j[k]`: a field lookup on objects, `undefined` elsewhere
(none of the keys used by the source is an array/string index). -/
def jprop : Json → String → Option Json
  | .obj fs, k => List.lookup k fs
  | _, _ => none

/-- Optional-chaining access `o?.[k]`. -/
def jget (o : Option Json) (k : String) : Option Json :=
  match o with
  | some j => jprop j k
  | none => none

/-- `a ?? b` on optional JSON values. -/
def jsCoal (a b : Option Json) : Option Json :=
  if nullish a then b else a

mutual
/-- JavaScript `String(x)` conversion of a JSON value. -/
def jsString : Json → String
  | .null => "null"
  | .bool true => "true"
  | .bool false => "false"
  | .num n => toString n
  | .str s => s
  | .arr xs => jsJoin "," xs
  | .obj _ => "[object Object]"

/-- `Array.prototype.join(sep)`: elements stringified with `String`, except
`null`/`undefined` elements which become the empty string. -/
def jsJoin (sep : String) : List Json → String
  | [] => ""
  | [.null] => ""
  | [x] => jsString x
  | .null :: xs => "" ++ sep ++ jsJoin sep xs
  | x :: xs => jsString x ++ sep ++ jsJoin sep xs
end

/-- The WhiteSpace/LineTerminator set trimmed by `String.prototype.trim`. -/
def jsWs (c : Char) : Bool :=
  c == ' ' || c == '\t' || c == '\n' || c == '\r' || c == '\x0b' || c == '\x0c' ||
  c == '\u00A0' || c == '\uFEFF' || c == '\u1680' ||
  (0x2000 ≤ c.toNat && c.toNat ≤ 0x200A) ||
  c == '\u2028' || c == '\u2029' || c == '\u202F' || c == '\u205F' || c == '\u3000'

/-- Trim on character lists (both ends, JavaScript whitespace set). -/
def jsTrimL (l : List Char) : List Char :=
  ((l.dropWhile jsWs).reverse.dropWhile jsWs).reverse

/-- `s.trim()` of the source. -/
def jsTrim (s : String) : String :=
  ⟨jsTrimL s.data⟩

/-- `clean` (server.mjs line 43): replace every U+00A0 with a plain space,
then trim. -/
def clean (s : String) : String :=
  jsTrim ⟨s.data.map (fun c => if c == '\u00A0' then ' ' else c)⟩

/-- One extracted turn before ordinals are assigned. The role is kept as the
raw JSON value the source pushes (`out.push({ role, content: t })`). -/
structure Turn where
  role : Json
  content : String
deriving Repr

/-- Role resolution `m?.author?.role || m?.role` (server.mjs line 67). -/
def resolveRole (m : Json) : Option Json :=
  let a := jget (jprop m "author") "role"
  if otruthy a then a else jprop m "role"

/-- Text resolution (server.mjs lines 68-69):
`Array.isArray(parts) ? parts.join("\n\n") : m?.content?.text ?? m?.content ?? m?.text`. -/
def resolveText (m : Json) : Option Json :=
  match jget (jprop m "content") "parts" with
  | some (.arr ps) => some (.str (jsJoin "\n\n" ps))
  | _ => jsCoal (jget (jprop m "content") "text")
           (jsCoal (jprop m "content") (jprop m "text"))

/-- `String(text ?? "").trim()` from the `push` helper (server.mjs line 61). -/
def textString (m : Json) : String :=
  jsTrim (match resolveText m with
    | none => ""
    | some .null => ""
    | some j => jsString j)

/-- The `push(role, text)` helper (server.mjs lines 60-63): a turn is emitted
only when the role is truthy and the trimmed text is non-empty. -/
def pushOf (role : Option Json) (t : String) : Option Turn :=
  match role with
  | some r => if truthy r && !(t == "") then some ⟨r, t⟩ else none
  | none => none

/-- Array-shaped probe body (server.mjs lines 65-72). -/
def listExtract (xs : List Json) : List Turn :=
  xs.filterMap (fun m => pushOf (resolveRole m) (textString m))

/-- `v?.message || v` for mapping-shaped nodes (server.mjs line 75). -/
def msgOf (v : Json) : Json :=
  match jprop v "message" with
  | some mj => if truthy mj then mj else v
  | none => v

/-- Mapping-shaped probe body over `Object.values(node)` (server.mjs 73-81). -/
def mapExtract (fs : List (String × Json)) : List Turn :=
  fs.filterMap (fun kv => pushOf (resolveRole (msgOf kv.2)) (textString (msgOf kv.2)))

/-- What a single probe yields from its node. -/
def probeNode : Json → List Turn
  | .arr xs => listExtract xs
  | .obj fs => mapExtract fs
  | _ => []

/-- The fixed probe order (server.mjs lines 48-54). -/
def paths : List (List String) :=
  [ ["props", "pageProps", "serverResponse", "messages"],
    ["props", "pageProps", "sharedConversation", "mapping"],
    ["state", "conversation", "messages"],
    ["messages"],
    ["turns"] ]

/-- `let node = json; for (const k of p) node = node?.[k]`. -/
def traverse (j : Json) (p : List String) : Option Json :=
  p.foldl jget (some j)

/-- The probe loop of `extractTurnsFromPossibleJSON` with its shared `out`
accumulator (server.mjs lines 55-83). A probe whose node is absent or falsy is
skipped; an array/object probe returns the accumulator as soon as it is
non-empty; a truthy primitive node is skipped without returning. -/
def extractGo (j : Json) : List (List String) → List Turn → List Turn
  | [], out => out
  | p :: rest, out =>
    match traverse j p with
    | none => extractGo j rest out
    | some n =>
      if truthy n then
        match n with
        | .arr xs =>
          let out2 := out ++ listExtract xs
          if out2.isEmpty then extractGo j rest out2 else out2
        | .obj fs =>
          let out2 := out ++ mapExtract fs
          if out2.isEmpty then extractGo j rest out2 else out2
        | _ => extractGo j rest out
      else extractGo j rest out

/-- `extractTurnsFromPossibleJSON` (server.mjs lines 46-85). -/
def extractTurnsFromPossibleJSON (j : Json) : List Turn :=
  extractGo j paths []

/- ---------------- DOM model and `extractFromDomHTML` ---------------- -/

/-- A parsed markup node as cheerio exposes it: text nodes and elements with
an attribute list and children. -/
inductive Dnode where
  | text (s : String)
  | elem (tag : String) (attrs : List (String × String)) (children : List Dnode)
deriving Repr

mutual
/-- `$(el).text()`: concatenation of all descendant text, no separators. -/
def textOf : Dnode → String
  | .text s => s
  | .elem _ _ cs => textsOf cs

/-- `textOf` over a child list. -/
def textsOf : List Dnode → String
  | [] => ""
  | n :: ns => textOf n ++ textsOf ns
end

mutual
/-- The `pre` replacement loop (server.mjs lines 135-138): every `pre` element
is replaced by a text node holding the fenced-code placeholder built from its
flattened text. The placeholder string is modelled as a text node (re-parsing
of markup-special characters inside code text by cheerio's `replaceWith` is
out of scope). -/
def replacePre : Dnode → Dnode
  | .text s => .text s
  | .elem tag attrs cs =>
    if tag == "pre" then .text ("```" ++ "\n" ++ textOf (.elem tag attrs cs) ++ "\n" ++ "```")
    else .elem tag attrs (replacePres cs)

/-- `replacePre` over a child list. -/
def replacePres : List Dnode → List Dnode
  | [] => []
  | n :: ns => replacePre n :: replacePres ns
end

/-- The turn-role marker attribute selected by `$("[data-message-author-role]")`. -/
def marker : String := "data-message-author-role"

mutual
/-- Document-order (pre-order) collection of elements bearing the marker
attribute, as the cheerio selector returns them. -/
def findMarked : Dnode → List Dnode
  | .text _ => []
  | .elem tag attrs cs =>
    (if (List.lookup marker attrs).isSome then [Dnode.elem tag attrs cs] else [])
      ++ findMarkedL cs

/-- `findMarked` over a node list. -/
def findMarkedL : List Dnode → List Dnode
  | [] => []
  | n :: ns => findMarked n ++ findMarkedL ns
end

/-- Body of the `nodes.each` callback (server.mjs lines 133-141): read the
role attribute (`|| "assistant"` when absent or empty), replace `pre`
descendants, flatten to text, `clean`, and keep the turn when non-empty. -/
def domTurnOf : Dnode → Option Turn
  | .text _ => none
  | .elem _ attrs cs =>
    let role := match List.lookup marker attrs with
      | some v => if v == "" then "assistant" else v
      | none => "assistant"
    let txt := clean (textsOf (replacePres cs))
    if txt == "" then none else some ⟨.str role, txt⟩

/-- The non-turn page components the extractors read through cheerio:
`og:title` meta, document title, `model` meta. `none` models an absent
tag/attribute; the strings are the raw attribute/text values. -/
structure DomPage where
  nodes : List Dnode
  ogTitle : Option String
  docTitle : String
  modelMeta : Option String
deriving Repr

/-- JavaScript `a || b` for an optional string against a default. -/
def strOr (a : Option String) (b : String) : String :=
  match a with
  | some s => if s == "" then b else s
  | none => b

/-- Title resolution
`clean($('meta[property="og:title"]').attr("content") || $("title").text() || "Conversation")`. -/
def titleOf (pg : DomPage) : String :=
  clean (strOr pg.ogTitle (if pg.docTitle == "" then "Conversation" else pg.docTitle))

/-- Model resolution `$('meta[name="model"]').attr("content") || null`. -/
def modelOf (pg : DomPage) : Option String :=
  match pg.modelMeta with
  | some s => if s == "" then none else some s
  | none => none

/-- An extractor result `{ title, model, turns }`. -/
structure Parsed where
  title : String
  model : Option String
  turns : List Turn
deriving Repr

/-- `extractFromDomHTML` (server.mjs lines 128-148). -/
def extractFromDomHTML (pg : DomPage) : Option Parsed :=
  let marked := findMarkedL pg.nodes
  if marked.isEmpty then none
  else
    let turns := marked.filterMap domTurnOf
    if turns.isEmpty then none
    else some ⟨titleOf pg, modelOf pg, turns⟩

/- ---------------- embedded-JSON extraction and the pipeline ---------------- -/

/-- A fetched page, pre-parsed into what `extractFromEmbeddedJSON` and
`extractFromDomHTML` consume: the `__NEXT_DATA__` script payload when present
and parseable, the first generic JSON script blob
(`script[type="application/json"]` / `script[data-state]`) when present and
parseable, and the DOM. -/
structure Page where
  nextData : Option Json
  genericJson : Option Json
  domPage : DomPage
deriving Repr

/-- Build a `Parsed` from a JSON payload when it yields turns
(server.mjs lines 94-101 and 113-121). -/
def fromJsonPayload (pg : DomPage) (j : Json) : Option Parsed :=
  let ts := extractTurnsFromPossibleJSON j
  if ts.isEmpty then none else some ⟨titleOf pg, modelOf pg, ts⟩

/-- The generic JSON blob fallback inside `extractFromEmbeddedJSON`
(server.mjs lines 105-123). -/
def genericStep (p : Page) : Option Parsed :=
  match p.genericJson with
  | some j => fromJsonPayload p.domPage j
  | none => none

/-- `extractFromEmbeddedJSON` (server.mjs lines 88-125): `__NEXT_DATA__`
fast path first, then the generic blobs. -/
def extractFromEmbeddedJSON (p : Page) : Option Parsed :=
  match p.nextData with
  | some j =>
    match fromJsonPayload p.domPage j with
    | some r => some r
    | none => genericStep p
  | none => genericStep p

/-- The page state observed by the Playwright fallback: the `__NEXT_DATA__`
payload when the selector appeared in time, parsed, and starting with `{`;
the live `page.title()`; and the hydrated DOM snapshot. -/
structure PwPage where
  nextData : Option Json
  pageTitle : String
  domPage : DomPage
deriving Repr

/-- The parsing portion of `extractWithPlaywright` (server.mjs lines 192-214),
after navigation succeeded: `__NEXT_DATA__` first (title from `page.title()
|| "Conversation"`, model `null`), then the hydrated-DOM extractor. -/
def extractWithPlaywright (pw : PwPage) : Option Parsed :=
  match pw.nextData with
  | some j =>
    let ts := extractTurnsFromPossibleJSON j
    if ts.isEmpty then extractFromDomHTML pw.domPage
    else some ⟨(if pw.pageTitle == "" then "Conversation" else pw.pageTitle), none, ts⟩
  | none => extractFromDomHTML pw.domPage

/- ---------------- URL allow-list ---------------- -/

/-- ASCII-only lower-casing, matching the case folding the `/i` regex flag
performs on the ASCII-only pattern of `isChatGPTShare`. -/
def asciiLowerChar (c : Char) : Char :=
  if 'A' ≤ c ∧ c ≤ 'Z' then Char.ofNat (c.toNat + 32) else c

/-- Boolean list-prefix test. -/
def listPre : List Char → List Char → Bool
  | [], _ => true
  | _ :: _, [] => false
  | p :: ps, c :: cs => p == c && listPre ps cs

/-- Second alternative group of the regex: `(chatgpt\.com|chat\.openai\.com)/share/`. -/
def hostSharePart (r : List Char) : Bool :=
  listPre "chatgpt.com/share/".data r || listPre "chat.openai.com/share/".data r

/-- `isChatGPTShare` (server.mjs line 42): the anchored case-insensitive
regex `^https?:\/\/(chatgpt\.com|chat\.openai\.com)\/share\//i`. -/
def isChatGPTShare (url : String) : Bool :=
  let l := url.data.map asciiLowerChar
  (listPre "http://".data l && hostSharePart (l.drop 7)) ||
  (listPre "https://".data l && hostSharePart (l.drop 8))

/-- Modelled from the spec: the allow-listed set of share-link hosts
("host matches the allow-listed set"). -/
def allowedHosts : List String := ["chatgpt.com", "chat.openai.com"]

/-- Modelled from the spec: a URL "matches the allow-listed set of hosts for
conversation share links" — it begins, ASCII-case-insensitively, with an
http(s) scheme, an allow-listed host, and the `/share/` path. -/
def shareBySpec (url : String) : Bool :=
  let l := url.data.map asciiLowerChar
  allowedHosts.any (fun h =>
    listPre ("http://" ++ h ++ "/share/").data l ||
    listPre ("https://" ++ h ++ "/share/").data l)

/-- Finds the character list following the first `://`. -/
def afterScheme : List Char → Option (List Char)
  | ':' :: '/' :: '/' :: rest => some rest
  | _ :: cs => afterScheme cs
  | [] => none

/-- Modelled from the spec: "the URL's host" — the authority component after
`://` up to the first delimiter (userinfo/ports are not needed by any claim). -/
def hostOf (url : String) : String :=
  match afterScheme url.data with
  | some r => ⟨r.takeWhile (fun c => !(c == '/') && !(c == ':') && !(c == '?') && !(c == '#'))⟩
  | none => ""

/- ---------------- ingestCore ---------------- -/

/-- A turn of the final response (`{ role, content, ord }`). -/
structure OutTurn where
  role : Json
  content : String
  ord : Nat
deriving Repr

/-- The assembled success payload (the `fetched_at` timestamp and the constant
`source: "chatgpt"` field carry no verifiable content and are omitted). -/
structure Conversation where
  title : String
  model : Option String
  canonicalUrl : String
  turns : List OutTurn
deriving Repr

/-- `parsed.turns.map((t, i) => ({ role: t.role, content: t.content, ord: i }))`. -/
def ordMap : Nat → List Turn → List OutTurn
  | _, [] => []
  | i, t :: ts => ⟨t.role, t.content, i⟩ :: ordMap (i + 1) ts

/-- The configuration flags `DRY_RUN` and `FORCE_PLAYWRIGHT`. -/
structure Cfg where
  dryRun : Bool
  forcePw : Bool
deriving Repr

/-- The distinct response bodies `ingestCore` can produce. -/
inductive Outcome where
  | dryRunResp (targetUrl : String) (debugFlag : Bool)
  | urlRequired
  | badUrl
  | parseFailed
  | parseFailedDebug (contentType : String) (bytes : Nat) (headSample : String)
  | parseFailedDebugErr
  | success (c : Conversation)
deriving Repr

/-- A static-fetch response: HTTP status, the headers/body the debug path
reads, and the parsed page the extractors consume. -/
structure FetchResp where
  status : Nat
  contentType : String
  body : String
  page : Page
deriving Repr

/-- `r.ok` of the fetch API. -/
def respOk (r : FetchResp) : Bool :=
  200 ≤ r.status && r.status ≤ 299

/-- The static-fetch oracle: `.error` models a thrown network error. The
debug-path refetch is modelled by the same oracle (the remote server is
assumed deterministic across the two GETs of one call). -/
def FetchO : Type := Except Unit FetchResp

/-- The Playwright oracle: `.error` models a navigation/browser crash thrown
out of `extractWithPlaywright`. -/
def PwO : Type := Except Unit PwPage

/-- `s.slice(0, n)`. -/
def takeChars (n : Nat) (s : String) : String :=
  ⟨s.data.take n⟩

/-- The failure-diagnostics block (server.mjs lines 263-277). -/
def failOut (debugFlag : Bool) (fo : FetchO) : Outcome :=
  if debugFlag then
    match fo with
    | .ok r => .parseFailedDebug r.contentType r.body.length (takeChars 800 r.body)
    | .error _ => .parseFailedDebugErr
  else .parseFailed

/-- `title: parsed.title || "Conversation"`, `model: parsed.model || null`,
and the `ord` assignment (server.mjs lines 280-291). -/
def mkConv (url : String) (p : Parsed) : Conversation :=
  ⟨(if p.title == "" then "Conversation" else p.title),
   (match p.model with
    | some s => if s == "" then none else some s
    | none => none),
   url, ordMap 0 p.turns⟩

/-- Step 3 of `ingestCore` applied to a non-null `parsed`: parse-failure
diagnostics when the turn list is empty, otherwise the success payload. -/
def finishParsed (url : String) (debugFlag : Bool) (fo : FetchO) (p : Parsed) : Outcome :=
  if p.turns.isEmpty then failOut debugFlag fo else .success (mkConv url p)

/-- Step 1 of `ingestCore` (server.mjs lines 242-257): the static fetch is
skipped under `FORCE_PLAYWRIGHT`; a thrown fetch error or non-ok status
falls through with `parsed` still null. -/
def staticParse (cfg : Cfg) (fo : FetchO) : Option Parsed :=
  if cfg.forcePw then none
  else
    match fo with
    | .error _ => none
    | .ok r =>
      if respOk r then
        match extractFromEmbeddedJSON r.page with
        | some p => some p
        | none => extractFromDomHTML r.page.domPage
      else none

/-- `ingestCore` (server.mjs lines 224-291). A `.error` result models the
uncaught exception thrown out of `extractWithPlaywright`. -/
def ingestCore (cfg : Cfg) (targetUrl : String) (debugFlag : Bool)
    (fo : FetchO) (po : PwO) : Except Unit Outcome :=
  if cfg.dryRun then .ok (.dryRunResp targetUrl debugFlag)
  else if targetUrl == "" then .ok .urlRequired
  else if !(isChatGPTShare targetUrl) then .ok .badUrl
  else
    match staticParse cfg fo with
    | some p => .ok (finishParsed targetUrl debugFlag fo p)
    | none =>
      match po with
      | .error _ => .error ()
      | .ok pw =>
        match extractWithPlaywright pw with
        | some p => .ok (finishParsed targetUrl debugFlag fo p)
        | none => .ok (failOut debugFlag fo)

/-- Predicate for a failed static fetch: thrown error or `!r.ok`. -/
def fetchFailedO (fo : FetchO) : Bool :=
  match fo with
  | .error _ => true
  | .ok r => !(respOk r)

/- ---------------- PDF endpoint helpers ---------------- -/

/-- The apostrophe and backtick characters. -/
def squote : Char := Char.ofNat 39

/-- The backtick character. -/
def btick : Char := Char.ofNat 96

/-- Expansion of one character under `escapeHtml`
(server.mjs lines 357-358). -/
def escCharL (c : Char) : List Char :=
  if c == '&' then "&amp;".data
  else if c == '<' then "&lt;".data
  else if c == '>' then "&gt;".data
  else if c == '"' then "&quot;".data
  else if c == squote then "&#39;".data
  else [c]

/-- `escapeHtml` (server.mjs lines 357-358). -/
def escapeHtml (s : String) : String :=
  ⟨(s.data.map escCharL).flatten⟩

/-- Does the list start with three backticks? -/
def isTripleHead : List Char → Bool
  | a :: b :: c :: _ => a == btick && b == btick && c == btick
  | _ => false

/-- Split at every (leftmost, non-overlapping) occurrence of three backticks,
the separator the `/```([\s\S]*?)```/g` regex consumes. -/
def splitTicks : List Char → List (List Char)
  | [] => [[]]
  | [c] => [[c]]
  | [c, d] => [[c, d]]
  | c :: d :: e :: rest =>
    if isTripleHead (c :: d :: e :: rest) then [] :: splitTicks rest
    else
      match splitTicks (d :: e :: rest) with
      | s :: ss => (c :: s) :: ss
      | [] => [[c]]

/-- The replacement `<pre><code>${escapeHtml(code)}</code></pre>`. -/
def wrapCode (code : List Char) : List Char :=
  "<pre><code>".data ++ (code.map escCharL).flatten ++ "</code></pre>".data

/-- Reassemble the segments of `splitTicks`, wrapping every second segment
(the lazily-matched code bodies); an unmatched trailing opener is restored
verbatim, as the regex leaves it unmatched. -/
def joinFence : List (List Char) → List Char
  | [] => []
  | [a] => a
  | [a, b] => a ++ "```".data ++ b
  | a :: b :: rest => a ++ wrapCode b ++ joinFence rest

/-- The final `.replace(/\n/g, "<br/>")` applied to the whole string. -/
def replaceNlL (l : List Char) : List Char :=
  (l.map (fun c => if c == '\n' then "<br/>".data else [c])).flatten

/-- `formatRich` (server.mjs lines 359-362): code fences replaced by escaped
`<pre><code>` blocks, then every newline replaced by `<br/>`. -/
def formatRich (s : String) : String :=
  ⟨replaceNlL (joinFence (splitTicks s.data))⟩

/-- Is `c` in `[a-z0-9]` (the characters the slug regex keeps)? -/
def isSlugChar (c : Char) : Bool :=
  ('a' ≤ c && c ≤ 'z') || ('0' ≤ c && c ≤ '9')

mutual
/-- `.replace(/[^a-z0-9]+/g, "-")`: every maximal run of non-alphanumeric
characters becomes one hyphen. -/
def collapseRuns : List Char → List Char
  | [] => []
  | c :: cs =>
    if isSlugChar c then c :: collapseRuns cs else '-' :: skipRun cs

/-- Consumes the rest of a non-alphanumeric run. -/
def skipRun : List Char → List Char
  | [] => []
  | c :: cs =>
    if isSlugChar c then c :: collapseRuns cs else skipRun cs
end

/-- `.replace(/(^-|-$)/g, "")` removing a leading hyphen. -/
def dropLeadHyphen : List Char → List Char
  | [] => []
  | c :: rest => if c == '-' then rest else c :: rest

/-- `.replace(/(^-|-$)/g, "")` removing a trailing hyphen. -/
def dropTrailHyphen : List Char → List Char
  | [] => []
  | [c] => if c == '-' then [] else [c]
  | c :: d :: cs => c :: dropTrailHyphen (d :: cs)

/-- `slug` (server.mjs line 363):
`(s || "conversation").toLowerCase().replace(/[^a-z0-9]+/g, "-").replace(/(^-|-$)/g, "")`.
Lower-casing is modelled on ASCII letters (no claim involves the few Unicode
characters whose `toLowerCase` image is ASCII). -/
def slug (s : String) : String :=
  let base := if s == "" then "conversation" else s
  ⟨dropTrailHyphen (dropLeadHyphen (collapseRuns (base.data.map asciiLowerChar)))⟩

/-- The attachment filename `` `${slug(title)}.pdf` `` (server.mjs line 384). -/
def pdfFilename (title : String) : String :=
  slug title ++ ".pdf"

/-- `String(x)` for a possibly-undefined value (`String(undefined)` is the
literal text `undefined`). -/
def jsStringU : Option Json → String
  | none => "undefined"
  | some j => jsString j

/-- JavaScript `a || b` on an optional JSON value against a JSON default. -/
def jsOrJ (a : Option Json) (b : Json) : Json :=
  match a with
  | some j => if truthy j then j else b
  | none => b

/-- One turn section of the generated markup (server.mjs line 373):
`<div class="turn"><div class="role">${escapeHtml(t.role)}</div><div class="bubble">${formatRich(String(t.content||""))}</div></div>`. -/
def turnDiv (t : Json) : String :=
  "<div class=\"turn\"><div class=\"role\">" ++ escapeHtml (jsStringU (jprop t "role")) ++
  "</div><div class=\"bubble\">" ++ formatRich (jsString (jsOrJ (jprop t "content") (.str ""))) ++
  "</div></div>"

/-- The fixed head of the template literal (server.mjs lines 365-370). -/
def pdfHead : String :=
  "<!doctype html><html><head><meta charset=\"utf-8\"><style>\nbody \x7b font-family: ui-sans-serif, system-ui, -apple-system, Segoe UI, Roboto, Helvetica, Arial; \x7d\n.role \x7b font-weight: 600; margin-top: 12px; \x7d\n.bubble \x7b border: 1px solid #ddd; border-radius: 8px; padding: 10px; \x7d\npre, code \x7b font-family: ui-monospace, SFMono-Regular, Menlo, Monaco, Consolas, \"Liberation Mono\", monospace; font-size: 10pt; \x7d\n</style></head><body>\n<h1>"

/-- The turn sections concatenated, `turns.map(t => ...).join("")`. -/
def turnsHtml (turns : List Json) : String :=
  String.join (turns.map turnDiv)

/-- The full generated markup of the `/api/pdf` handler (server.mjs lines
365-374); `now` stands for the `nowIso()` timestamp interpolation. -/
def pdfHtml (now : String) (title : String) (turns : List Json) : String :=
  pdfHead ++ escapeHtml title ++ "</h1>\n<div>Exported " ++ now ++ "</div>\n" ++
  turnsHtml turns ++ "\n</body></html>"

/- ---------------- decidable checkers used by claim statements ---------------- -/

/-- A character that cannot open markup or close an attribute: not one of
`<`, `>`, `"`, `\x27`. -/
def escSafeChar (c : Char) : Bool :=
  !(c == '<') && !(c == '>') && !(c == '"') && !(c == squote)

/-- Every character of the string is markup-safe. -/
def escSafe (s : String) : Bool :=
  s.data.all escSafeChar

/-- The string contains no backtick. -/
def noTicks (s : String) : Bool :=
  s.data.all (fun c => !(c == btick))

/-- The string contains no newline. -/
def noNl (s : String) : Bool :=
  s.data.all (fun c => !(c == '\n'))

/-- A character the slug may contain: `[a-z0-9]` or a hyphen. -/
def slugOk (c : Char) : Bool :=
  isSlugChar c || c == '-'

/-- No two adjacent hyphens anywhere in the list. -/
def noDoubleHyphen : List Char → Bool
  | [] => true
  | [_] => true
  | a :: b :: cs => !(a == '-' && b == '-') && noDoubleHyphen (b :: cs)

/-- The list does not start with a hyphen. -/
def headNotHyphen : List Char → Bool
  | [] => true
  | c :: _ => !(c == '-')

/-- The list does not end with a hyphen. -/
def lastNotHyphen : List Char → Bool
  | [] => true
  | [c] => !(c == '-')
  | _ :: d :: cs => lastNotHyphen (d :: cs)

/-- Does the message carry an array-valued `content.parts`? -/
def hasPartsArr (m : Json) : Bool :=
  match jget (jprop m "content") "parts" with
  | some (.arr _) => true
  | _ => false

/- ---------------- concrete inputs used by witnesses / counterexamples ---------------- -/

/-- A legacy-path message `{role: "user", content: "hi"}`. -/
def msgHi : Json := .obj [("role", .str "user"), ("content", .str "hi")]

/-- A payload carrying both the legacy nested path and the generic `turns`
path, with different messages. -/
def jBoth : Json :=
  .obj [("props", .obj [("pageProps", .obj [("serverResponse",
          .obj [("messages", .arr [msgHi])])])]),
        ("turns", .arr [.obj [("role", .str "assistant"), ("content", .str "yo")]])]

/-- A payload whose only message content holds an interior U+00A0. -/
def jNbsp : Json :=
  .obj [("messages", .arr [.obj [("role", .str "user"), ("content", .str "a\u00A0b")]])]

/-- A payload whose message text comes from a two-element `parts` list. -/
def jParts : Json :=
  .obj [("messages", .arr [.obj
    [("role", .str "user"),
     ("content", .obj [("parts", .arr [.str "a", .str "b"])])]])]

/-- An empty DOM page (no marker elements, no meta tags, empty title). -/
def pgEmpty : DomPage := ⟨[], none, "", none⟩

/-- A fetched page whose `__NEXT_DATA__` payload is `jNbsp`. -/
def respNbsp : FetchResp := ⟨200, "text/html", "", ⟨some jNbsp, none, pgEmpty⟩⟩

/-- A fetched page whose `__NEXT_DATA__` payload is `msgHi` under `messages`. -/
def respHi : FetchResp :=
  ⟨200, "text/html", "",
   ⟨some (.obj [("messages", .arr [msgHi])]), none, pgEmpty⟩⟩

/-- The DOM page of spec scenario 2: a marker element containing text and a
`pre` child. -/
def pgHello : DomPage :=
  ⟨[.elem "div" [("data-message-author-role", "assistant")]
      [.text "Hello", .elem "pre" [] [.text "code()"]]], none, "", none⟩

/- ---------------- theorems ---------------- -/

/-- C10: with the `DRY_RUN` smoke-test flag set, `ingestCore` returns the
dry-run success body for every input URL — the empty string and
non-allow-listed URLs included — without consulting the URL allow-list, the
fetch oracle, or the render oracle. -/
theorem c10_dry_run_short_circuit :
    ∀ (force : Bool) (url : String) (dbg : Bool) (fo : FetchO) (po : PwO),
      ingestCore ⟨true, force⟩ url dbg fo po = .ok (.dryRunResp url dbg) := by
  intro force url dbg fo po
  simp [ingestCore]

/-- C9: whenever the static fetch fails (thrown network error or non-ok
status such as 500), `ingestCore` behaves exactly as if the static stage had
been skipped (`FORCE_PLAYWRIGHT`): it advances to the Playwright fallback and
no fetch-failure error is surfaced to the caller. -/
theorem c9_fetch_failure_falls_back :
    ∀ (cfg : Cfg) (url : String) (dbg : Bool) (fo : FetchO) (po : PwO),
      fetchFailedO fo = true →
      ingestCore cfg url dbg fo po = ingestCore { cfg with forcePw := true } url dbg fo po := by
  intro cfg url dbg fo po h
  have hs : staticParse cfg fo = none := by
    cases fo with
    | error e => simp [staticParse]
    | ok r =>
      have hr : respOk r = false := by
        simpa [fetchFailedO] using h
      simp [staticParse, hr]
  have hs2 : staticParse { cfg with forcePw := true } fo = none := by
    simp [staticParse]
  unfold ingestCore
  rw [hs, hs2]

/-- Closed instance of `c9_fetch_failure_falls_back` at a thrown fetch. -/
theorem c9_witness :
    ingestCore ⟨false, false⟩ "https://chatgpt.com/share/x" false (.error ()) (.error ())
      = ingestCore ⟨false, true⟩ "https://chatgpt.com/share/x" false (.error ()) (.error ()) :=
  c9_fetch_failure_falls_back ⟨false, false⟩ "https://chatgpt.com/share/x" false (.error ()) (.error ()) rfl

/-- C3 counterexample: `https://chatgpt.com/c/123` has an allow-listed host,
yet the predicate `isChatGPTShare` rejects it (the regex also requires the
`/share/` path) — so the predicate does not hold iff the host matches the
allow-listed set. -/
theorem c3_counterexample :
    hostOf "https://chatgpt.com/c/123" ∈ allowedHosts ∧
    isChatGPTShare "https://chatgpt.com/c/123" = false := by
  constructor
  · decide
  · decide

/-- Splitting a list-prefix test at an append boundary. -/
theorem listPre_append (a b l : List Char) :
    listPre (a ++ b) l = (listPre a l && listPre b (l.drop a.length)) := by
  induction a generalizing l with
  | nil => simp [listPre]
  | cons p ps ih =>
    cases l with
    | nil => simp [listPre]
    | cons c cs => simp [listPre, ih, Bool.and_assoc]

/-- C3 (amended): the predicate `isChatGPTShare` holds iff the URL begins,
ASCII-case-insensitively, with `http://` or `https://`, an allow-listed host,
and the `/share/` path (host alone is not sufficient); and with the dry-run
flag off, every URL failing the predicate is answered with the 400 error body
(`url required` for the empty URL, `only chatgpt share links supported`
otherwise) identically for all fetch/render oracles — no network or render
step is consulted. -/
theorem c3_allowlist_amended :
    (∀ url : String, isChatGPTShare url = shareBySpec url) ∧
    (∀ (cfg : Cfg) (url : String) (dbg : Bool) (fo po fo2 po2 : _),
      cfg.dryRun = false → isChatGPTShare url = false →
      ingestCore cfg url dbg fo po = ingestCore cfg url dbg fo2 po2 ∧
      ingestCore cfg url dbg fo po =
        .ok (if url == "" then Outcome.urlRequired else Outcome.badUrl)) := by
  constructor
  · intro url
    have e1 : ("http://" ++ "chatgpt.com" ++ "/share/").data
        = "http://".data ++ "chatgpt.com/share/".data := by decide
    have e2 : ("https://" ++ "chatgpt.com" ++ "/share/").data
        = "https://".data ++ "chatgpt.com/share/".data := by decide
    have e3 : ("http://" ++ "chat.openai.com" ++ "/share/").data
        = "http://".data ++ "chat.openai.com/share/".data := by decide
    have e4 : ("https://" ++ "chat.openai.com" ++ "/share/").data
        = "https://".data ++ "chat.openai.com/share/".data := by decide
    have l7 : ("http://".data).length = 7 := by decide
    have l8 : ("https://".data).length = 8 := by decide
    simp only [isChatGPTShare, shareBySpec, allowedHosts, List.any_cons,
      List.any_nil, e1, e2, e3, e4, listPre_append, l7, l8, hostSharePart,
      Bool.or_false]
    generalize listPre "http://".data (url.data.map asciiLowerChar) = A
    generalize listPre "https://".data (url.data.map asciiLowerChar) = B
    generalize listPre "chatgpt.com/share/".data ((url.data.map asciiLowerChar).drop 7) = C
    generalize listPre "chat.openai.com/share/".data ((url.data.map asciiLowerChar).drop 7) = D
    generalize listPre "chatgpt.com/share/".data ((url.data.map asciiLowerChar).drop 8) = E
    generalize listPre "chat.openai.com/share/".data ((url.data.map asciiLowerChar).drop 8) = F
    cases A <;> cases B <;> cases C <;> cases D <;> cases E <;> cases F <;> rfl
  · intro cfg url dbg fo po fo2 po2 hdry hshare
    by_cases hu : url = ""
    · subst hu
      constructor
      · simp [ingestCore, hdry]
      · simp [ingestCore, hdry]
    · constructor
      · simp [ingestCore, hdry, hshare, hu]
      · simp [ingestCore, hdry, hshare, hu]

/-- Closed instance of `c3_allowlist_amended`: a non-share URL is answered
with the invalid-url error for arbitrary (never-consulted) oracles. -/
theorem c3_witness :
    ingestCore ⟨false, false⟩ "https://example.com/x" false (.error ()) (.error ())
      = .ok (if "https://example.com/x" == "" then Outcome.urlRequired else Outcome.badUrl) :=
  (c3_allowlist_amended.2 ⟨false, false⟩ "https://example.com/x" false
    (.error ()) (.error ()) (.ok respHi) (.error ()) rfl rfl).2

/-- C2: schema probes are consulted in fixed priority order — when the legacy
nested path `props→pageProps→serverResponse→messages` is present, truthy, and
yields at least one valid turn, `extractTurnsFromPossibleJSON` returns exactly
that probe's turns, even when the generic `turns` path is also present and
would also yield turns. -/
theorem c2_probe_priority :
    ∀ (j n1 n2 : Json),
      traverse j ["props", "pageProps", "serverResponse", "messages"] = some n1 →
      truthy n1 = true → probeNode n1 ≠ [] →
      traverse j ["turns"] = some n2 →
      truthy n2 = true → probeNode n2 ≠ [] →
      extractTurnsFromPossibleJSON j = probeNode n1 := by
  intro j n1 n2 h1 htr hne _ _ _
  unfold extractTurnsFromPossibleJSON paths extractGo
  rw [h1]
  simp only [htr, if_true]
  cases n1 with
  | null => simp [truthy] at htr
  | bool b => simp [probeNode] at hne
  | num n => simp [probeNode] at hne
  | str s => simp [probeNode] at hne
  | arr xs =>
    simp only [probeNode] at hne ⊢
    simp [List.isEmpty_iff, hne]
  | obj fs =>
    simp only [probeNode] at hne ⊢
    simp [List.isEmpty_iff, hne]

/-- Closed instance of `c2_probe_priority` on a payload carrying both the
legacy path and the `turns` path. -/
theorem c2_witness :
    extractTurnsFromPossibleJSON jBoth = [⟨.str "user", "hi"⟩] := by
  have e : probeNode (Json.arr [msgHi]) = [⟨.str "user", "hi"⟩] := rfl
  have h := c2_probe_priority jBoth (Json.arr [msgHi])
    (Json.arr [.obj [("role", .str "assistant"), ("content", .str "yo")]])
    rfl rfl (by rw [e]; exact List.cons_ne_nil _ _)
    rfl rfl (by exact List.cons_ne_nil _ _)
  rw [h, e]

/-- A pushed turn records the given non-empty trimmed text. -/
theorem pushOf_content {role : Option Json} {t : String} {tn : Turn}
    (h : pushOf role t = some tn) : tn.content = t ∧ t ≠ "" := by
  cases role with
  | none => simp [pushOf] at h
  | some r =>
    simp only [pushOf] at h
    split at h
    · rename_i hc
      cases h
      refine ⟨rfl, ?_⟩
      intro he
      subst he
      simp at hc
    · exact absurd h (by simp)

/-- Every turn of `listExtract` has non-empty content. -/
theorem listExtract_content {xs : List Json} {t : Turn}
    (h : t ∈ listExtract xs) : t.content ≠ "" := by
  unfold listExtract at h
  rcases List.mem_filterMap.1 h with ⟨m, _, hm⟩
  have hp := pushOf_content hm
  rw [hp.1]
  exact hp.2

/-- Every turn of `mapExtract` has non-empty content. -/
theorem mapExtract_content {fs : List (String × Json)} {t : Turn}
    (h : t ∈ mapExtract fs) : t.content ≠ "" := by
  unfold mapExtract at h
  rcases List.mem_filterMap.1 h with ⟨kv, _, hm⟩
  have hp := pushOf_content hm
  rw [hp.1]
  exact hp.2

/-- Every turn accumulated by the probe loop has non-empty content. -/
theorem extractGo_content (j : Json) :
    ∀ (ps : List (List String)) (out : List Turn),
      (∀ t ∈ out, t.content ≠ "") → ∀ t ∈ extractGo j ps out, t.content ≠ "" := by
  intro ps
  induction ps with
  | nil =>
    intro out hout t ht
    rw [extractGo] at ht
    exact hout t ht
  | cons p rest ih =>
    intro out hout t ht
    have happ : ∀ more : List Turn, (∀ u ∈ more, u.content ≠ "") →
        ∀ u ∈ out ++ more, u.content ≠ "" := by
      intro more hmore u hu
      rcases List.mem_append.1 hu with h1 | h2
      · exact hout u h1
      · exact hmore u h2
    simp only [extractGo] at ht
    split at ht
    · exact ih out hout t ht
    · split at ht
      · split at ht
        · split at ht
          · exact ih _ (happ _ (fun u hu => listExtract_content hu)) t ht
          · exact happ _ (fun u hu => listExtract_content hu) t ht
        · split at ht
          · exact ih _ (happ _ (fun u hu => mapExtract_content hu)) t ht
          · exact happ _ (fun u hu => mapExtract_content hu) t ht
        · exact ih out hout t ht
      · exact ih out hout t ht

/-- Every turn of `extractTurnsFromPossibleJSON` has non-empty content. -/
theorem extractTurns_content {j : Json} {t : Turn}
    (h : t ∈ extractTurnsFromPossibleJSON j) : t.content ≠ "" :=
  extractGo_content j paths [] (by simp) t h

/-- A DOM turn's content is non-empty and produced by `clean`. -/
theorem domTurnOf_content {n : Dnode} {tn : Turn}
    (h : domTurnOf n = some tn) : tn.content ≠ "" ∧ ∃ s, tn.content = clean s := by
  cases n with
  | text s => exact absurd h (by simp [domTurnOf])
  | elem tag attrs cs =>
    simp only [domTurnOf] at h
    split at h
    · exact absurd h (by simp)
    · rename_i hc
      cases h
      refine ⟨?_, ⟨textsOf (replacePres cs), rfl⟩⟩
      simpa using hc

/-- Every turn of a `extractFromDomHTML` result has non-empty `clean`ed
content. -/
theorem extractFromDomHTML_content {pg : DomPage} {p : Parsed}
    (h : extractFromDomHTML pg = some p) :
    ∀ t ∈ p.turns, t.content ≠ "" ∧ ∃ s, t.content = clean s := by
  simp only [extractFromDomHTML] at h
  split at h
  · exact absurd h (by simp)
  · split at h
    · exact absurd h (by simp)
    · cases h
      intro t ht
      simp only at ht
      rcases List.mem_filterMap.1 ht with ⟨n, _, hn⟩
      exact domTurnOf_content hn

/-- Every turn of a `fromJsonPayload` result has non-empty content. -/
theorem fromJsonPayload_content {pg : DomPage} {j : Json} {p : Parsed}
    (h : fromJsonPayload pg j = some p) : ∀ t ∈ p.turns, t.content ≠ "" := by
  simp only [fromJsonPayload] at h
  split at h
  · exact absurd h (by simp)
  · cases h
    intro t ht
    exact extractTurns_content ht

/-- Every turn of a `extractFromEmbeddedJSON` result has non-empty content. -/
theorem extractFromEmbeddedJSON_content {pge : Page} {p : Parsed}
    (h : extractFromEmbeddedJSON pge = some p) : ∀ t ∈ p.turns, t.content ≠ "" := by
  have hg : ∀ q : Parsed, genericStep pge = some q → ∀ t ∈ q.turns, t.content ≠ "" := by
    intro q hq
    unfold genericStep at hq
    split at hq
    · exact fromJsonPayload_content hq
    · exact absurd hq (by simp)
  unfold extractFromEmbeddedJSON at h
  split at h
  · split at h
    · rename_i hr
      cases h
      exact fromJsonPayload_content hr
    · exact hg p h
  · exact hg p h

/-- Every turn of a `extractWithPlaywright` result has non-empty content. -/
theorem extractWithPlaywright_content {pw : PwPage} {p : Parsed}
    (h : extractWithPlaywright pw = some p) : ∀ t ∈ p.turns, t.content ≠ "" := by
  simp only [extractWithPlaywright] at h
  split at h
  · split at h
    · intro t ht
      exact (extractFromDomHTML_content h t ht).1
    · cases h
      intro t ht
      exact extractTurns_content ht
  · intro t ht
    exact (extractFromDomHTML_content h t ht).1

/-- Every turn of a `staticParse` result has non-empty content. -/
theorem staticParse_content {cfg : Cfg} {fo : FetchO} {p : Parsed}
    (h : staticParse cfg fo = some p) : ∀ t ∈ p.turns, t.content ≠ "" := by
  unfold staticParse at h
  split at h
  · exact absurd h (by simp)
  · split at h
    · exact absurd h (by simp)
    · split at h
      · split at h
        · rename_i hq
          cases h
          exact extractFromEmbeddedJSON_content hq
        · intro t ht
          exact (extractFromDomHTML_content h t ht).1
      · exact absurd h (by simp)

/-- `failOut` never yields a success body. -/
theorem failOut_ne_success (dbg : Bool) (fo : FetchO) (c : Conversation) :
    failOut dbg fo ≠ .success c := by
  unfold failOut
  split
  · cases fo <;> simp
  · simp

/-- A successful `finishParsed` is the assembled conversation. -/
theorem finishParsed_success {url : String} {dbg : Bool} {fo : FetchO}
    {p : Parsed} {c : Conversation}
    (h : finishParsed url dbg fo p = .success c) : c = mkConv url p := by
  unfold finishParsed at h
  split at h
  · exact absurd h (failOut_ne_success dbg fo c)
  · cases h
    rfl

/-- A success outcome of `ingestCore` comes from a parsed result all of whose
turns have non-empty content, assembled by `mkConv`. -/
theorem ingest_success_parsed {cfg : Cfg} {url : String} {dbg : Bool}
    {fo : FetchO} {po : PwO} {conv : Conversation}
    (h : ingestCore cfg url dbg fo po = .ok (.success conv)) :
    ∃ p : Parsed, (∀ t ∈ p.turns, t.content ≠ "") ∧ conv = mkConv url p := by
  unfold ingestCore at h
  split at h
  · exact absurd h (by simp)
  · split at h
    · exact absurd h (by simp)
    · split at h
      · exact absurd h (by simp)
      · split at h
        · rename_i p hs
          refine ⟨p, staticParse_content hs, ?_⟩
          have h2 : finishParsed url dbg fo p = .success conv := by simpa using h
          exact finishParsed_success h2
        · split at h
          · exact absurd h (by simp)
          · split at h
            · rename_i p hp
              refine ⟨p, extractWithPlaywright_content hp, ?_⟩
              have h2 : finishParsed url dbg fo p = .success conv := by simpa using h
              exact finishParsed_success h2
            · have h2 : failOut dbg fo = Outcome.success conv := by simpa using h
              exact absurd h2 (failOut_ne_success dbg fo conv)

/-- `ordMap` preserves length. -/
theorem ordMap_length : ∀ (k : Nat) (l : List Turn), (ordMap k l).length = l.length := by
  intro k l
  induction l generalizing k with
  | nil => rfl
  | cons t ts ih => simp [ordMap, ih]

/-- The `i`-th element of `ordMap k l` carries ordinal `k + i` and the
`i`-th source content. -/
theorem ordMap_get : ∀ (k : Nat) (l : List Turn) (i : Nat)
    (h : i < (ordMap k l).length) (h2 : i < l.length),
    (ordMap k l).get ⟨i, h⟩ = ⟨(l.get ⟨i, h2⟩).role, (l.get ⟨i, h2⟩).content, k + i⟩ := by
  intro k l
  induction l generalizing k with
  | nil => intro i h h2; exact absurd h2 (by simp)
  | cons t ts ih =>
    intro i h h2
    cases i with
    | zero => simp [ordMap]
    | succ n =>
      have hn : n < (ordMap (k + 1) ts).length := by
        have h3 := h
        simp only [ordMap, List.length_cons] at h3
        omega
      have hn2 : n < ts.length := by
        simp only [List.length_cons] at h2
        omega
      simp only [ordMap, List.get_cons_succ]
      rw [ih (k + 1) n hn hn2]
      congr 1
      omega

/-- C1: for every conversation returned by a successful `ingestCore` call,
`turns[i].ord = i` at every valid index and no `turns[i].content` is the
empty string. -/
theorem c1_ord_and_content :
    ∀ (cfg : Cfg) (url : String) (dbg : Bool) (fo : FetchO) (po : PwO)
      (conv : Conversation),
      ingestCore cfg url dbg fo po = .ok (.success conv) →
      ∀ (i : Nat) (h : i < conv.turns.length),
        (conv.turns.get ⟨i, h⟩).ord = i ∧ (conv.turns.get ⟨i, h⟩).content ≠ "" := by
  intro cfg url dbg fo po conv hok i h
  rcases ingest_success_parsed hok with ⟨p, hgood, hconv⟩
  subst hconv
  have hlen : i < (ordMap 0 p.turns).length := h
  have h2 : i < p.turns.length := by
    rw [ordMap_length] at hlen
    exact hlen
  have hget := ordMap_get 0 p.turns i hlen h2
  have he : (mkConv url p).turns.get ⟨i, h⟩ = (ordMap 0 p.turns).get ⟨i, hlen⟩ := rfl
  constructor
  · rw [he, hget]
    simp
  · rw [he, hget]
    exact hgood _ (List.get_mem p.turns i h2)

/-- Closed instance of `c1_ord_and_content` on a concrete successful call. -/
theorem c1_witness :
    ((Conversation.mk "Conversation" none "https://chatgpt.com/share/x"
        [⟨.str "user", "hi", 0⟩]).turns.get ⟨0, by decide⟩).ord = 0 ∧
    ((Conversation.mk "Conversation" none "https://chatgpt.com/share/x"
        [⟨.str "user", "hi", 0⟩]).turns.get ⟨0, by decide⟩).content ≠ "" :=
  c1_ord_and_content ⟨false, false⟩ "https://chatgpt.com/share/x" false
    (.ok respHi) (.error ())
    (Conversation.mk "Conversation" none "https://chatgpt.com/share/x"
      [⟨.str "user", "hi", 0⟩]) rfl 0 (by decide)

/-- Membership survives `dropWhile`. -/
theorem mem_of_mem_dropWhile {p : Char → Bool} {c : Char} {l : List Char}
    (h : c ∈ l.dropWhile p) : c ∈ l :=
  (List.dropWhile_sublist p).mem h

/-- A member that fails the predicate survives `dropWhile`. -/
theorem mem_dropWhile_of_neg {p : Char → Bool} {c : Char} {l : List Char}
    (hm : c ∈ l) (hp : p c = false) : c ∈ l.dropWhile p := by
  induction l with
  | nil => cases hm
  | cons a t ih =>
    by_cases ha : p a = true
    · rw [List.dropWhile_cons_of_pos ha]
      rcases List.mem_cons.1 hm with he | ht
      · subst he
        rw [hp] at ha
        cases ha
      · exact ih ht
    · rw [List.dropWhile_cons_of_neg ha]
      exact hm

/-- Characters of a trimmed list come from the original list. -/
theorem mem_of_mem_jsTrimL {c : Char} {l : List Char}
    (h : c ∈ jsTrimL l) : c ∈ l := by
  unfold jsTrimL at h
  rw [List.mem_reverse] at h
  have h2 := mem_of_mem_dropWhile h
  rw [List.mem_reverse] at h2
  exact mem_of_mem_dropWhile h2

/-- A non-whitespace member of the list survives `jsTrimL`. -/
theorem mem_jsTrimL_of_neg {c : Char} {l : List Char}
    (hm : c ∈ l) (hw : jsWs c = false) : c ∈ jsTrimL l := by
  unfold jsTrimL
  rw [List.mem_reverse]
  apply mem_dropWhile_of_neg _ hw
  rw [List.mem_reverse]
  exact mem_dropWhile_of_neg hm hw

/-- `clean` output never contains U+00A0. -/
theorem clean_no_nbsp (s : String) : '\u00A0' ∉ (clean s).data := by
  intro h
  have h2 : '\u00A0' ∈ (s.data.map (fun c => if c == '\u00A0' then ' ' else c)) :=
    mem_of_mem_jsTrimL h
  rcases List.mem_map.1 h2 with ⟨c, _, hc⟩
  by_cases he : (c == '\u00A0') = true
  · rw [if_pos he] at hc
    cases hc
  · rw [if_neg he] at hc
    rw [hc] at he
    simp at he

/-- C5 (amended): every turn produced by the DOM extractor has its content
passed through `clean`, so it contains no non-breaking space (U+00A0); the
structured extractor (`extractTurnsFromPossibleJSON`) applies only `trim`, so
interior non-breaking spaces are preserved there (see the counterexample). -/
theorem c5_dom_no_nbsp :
    ∀ (pg : DomPage) (p : Parsed), extractFromDomHTML pg = some p →
      ∀ t ∈ p.turns, '\u00A0' ∉ t.content.data := by
  intro pg p h t ht
  rcases (extractFromDomHTML_content h t ht).2 with ⟨s, hs⟩
  rw [hs]
  exact clean_no_nbsp s

/-- Closed instance of `c5_dom_no_nbsp` on a concrete page. -/
theorem c5_witness :
    '\u00A0' ∉ (Turn.mk (.str "user") "hi").content.data :=
  c5_dom_no_nbsp ⟨[.elem "div" [("data-message-author-role", "user")] [.text "hi"]], none, "", none⟩
    ⟨"Conversation", none, [⟨.str "user", "hi"⟩]⟩ rfl ⟨.str "user", "hi"⟩ (by simp)

/-- C5 counterexample: a conversation produced by the full pipeline through
the structured extractor whose turn content retains an interior U+00A0 — the
structured path never applies the non-breaking-space normalization. -/
theorem c5_counterexample :
    ingestCore ⟨false, false⟩ "https://chatgpt.com/share/x" false
        (.ok respNbsp) (.error ())
      = .ok (.success ⟨"Conversation", none, "https://chatgpt.com/share/x",
          [⟨.str "user", "a\u00A0b", 0⟩]⟩) ∧
    '\u00A0' ∈ ("a\u00A0b" : String).data := by
  constructor
  · rfl
  · decide

/-- `clean` of a string holding a non-whitespace, non-U+00A0 character is
non-empty. -/
theorem clean_ne_empty {s : String} {c : Char}
    (hm : c ∈ s.data) (hw : jsWs c = false) (hn : (c == ' ') = false) :
    clean s ≠ "" := by
  intro he
  have hdata : (clean s).data = [] := by rw [he]
  have hm2 : c ∈ (s.data.map (fun x => if x == ' ' then ' ' else x)) := by
    refine List.mem_map.2 ⟨c, hm, ?_⟩
    rw [if_neg]
    simp [hn]
  have h3 : c ∈ jsTrimL (s.data.map (fun x => if x == ' ' then ' ' else x)) :=
    mem_jsTrimL_of_neg hm2 hw
  have h4 : (clean s).data = jsTrimL (s.data.map (fun x => if x == ' ' then ' ' else x)) := rfl
  rw [hdata] at h4
  rw [← h4] at h3
  cases h3

/-- C6 (amended): the DOM extractor replaces each `pre` descendant by the
literal placeholder backtick-fence around its text before flattening, and the
flattening inserts no separator of its own — for a marker element containing
text `s` followed by `<pre>` text `code`, the turn content is
`clean (s ++ "```\n" ++ code ++ "\n```")`; in particular the spec example
yields `"Hello```" ++ "\ncode()\n" ++ "```"` with no newline between `Hello`
and the opening fence. -/
theorem c6_pre_fence_amended :
    ∀ (role s code : String), role ≠ "" →
      extractFromDomHTML ⟨[.elem "div" [(marker, role)]
          [.text s, .elem "pre" [] [.text code]]], none, "", none⟩
        = some ⟨"Conversation", none,
            [⟨.str role, clean (s ++ "```" ++ "\n" ++ code ++ "\n" ++ "```")⟩]⟩ := by
  intro role s code hrole
  have hfence : textsOf (replacePres [Dnode.text s, Dnode.elem "pre" [] [Dnode.text code]])
      = s ++ "```" ++ "\n" ++ code ++ "\n" ++ "```" := by
    apply String.ext
    simp [textsOf, textOf, replacePres, replacePre, String.data_append]
  have hb : btick ∈ ("```" : String).data := by decide
  have hne : clean (s ++ "```" ++ "\n" ++ code ++ "\n" ++ "```") ≠ "" := by
    apply clean_ne_empty (c := btick)
    · simp only [String.data_append, List.mem_append]
      tauto
    · decide
    · decide
  have hdom : domTurnOf (Dnode.elem "div" [(marker, role)]
      [Dnode.text s, Dnode.elem "pre" [] [Dnode.text code]])
      = some ⟨.str role, clean (s ++ "```" ++ "\n" ++ code ++ "\n" ++ "```")⟩ := by
    simp only [domTurnOf, hfence]
    rw [if_neg (by simpa using hne)]
    have hl : List.lookup marker [(marker, role)] = some role := by
      simp [List.lookup]
    simp only [hl]
    rw [if_neg (by simpa using hrole)]
  simp only [extractFromDomHTML]
  have hmarked : findMarkedL [Dnode.elem "div" [(marker, role)]
      [Dnode.text s, Dnode.elem "pre" [] [Dnode.text code]]]
      = [Dnode.elem "div" [(marker, role)]
          [Dnode.text s, Dnode.elem "pre" [] [Dnode.text code]]] := rfl
  rw [hmarked]
  simp [List.filterMap, hdom, hne, titleOf, modelOf]
  rfl

/-- Closed instance of `c6_pre_fence_amended` at the spec's example. -/
theorem c6_witness :
    extractFromDomHTML ⟨[.elem "div" [(marker, "assistant")]
        [.text "Hello", .elem "pre" [] [.text "code()"]]], none, "", none⟩
      = some ⟨"Conversation", none,
          [⟨.str "assistant", clean ("Hello" ++ "```" ++ "\n" ++ "code()" ++ "\n" ++ "```")⟩]⟩ :=
  c6_pre_fence_amended "assistant" "Hello" "code()" (by decide)

/-- C6 counterexample: on the spec's example markup the extracted content is
`"Hello```" ++ "\ncode()\n" ++ "```"`, not the claimed
`"Hello\n```" ++ "\ncode()\n" ++ "```"` — the flattening inserts no newline
between `Hello` and the placeholder. -/
theorem c6_counterexample :
    extractFromDomHTML pgHello
      = some ⟨"Conversation", none, [⟨.str "assistant", "Hello```\ncode()\n```"⟩]⟩ ∧
    ("Hello```\ncode()\n```" : String) ≠ "Hello\n```\ncode()\n```" := by
  constructor
  · rfl
  · decide

/-- C7 (amended): in the list-shaped probe, the `author.role` field takes
precedence over a top-level `role` field whenever it is truthy (falling back
to the top-level field otherwise), and the text is the `content.parts` list
joined with a blank line (`"\n\n"`, not a single newline) when that list is
an array, falling back to `content.text`, then `content`, then `text`, in
that order. -/
theorem c7_role_text_resolution :
    (∀ (m r : Json), jget (jprop m "author") "role" = some r → truthy r = true →
        resolveRole m = some r) ∧
    (∀ m : Json, otruthy (jget (jprop m "author") "role") = false →
        resolveRole m = jprop m "role") ∧
    (∀ (m : Json) (ps : List Json), jget (jprop m "content") "parts" = some (.arr ps) →
        resolveText m = some (.str (jsJoin "\n\n" ps))) ∧
    (∀ m : Json, hasPartsArr m = false →
        resolveText m = jsCoal (jget (jprop m "content") "text")
          (jsCoal (jprop m "content") (jprop m "text"))) := by
  refine ⟨?_, ?_, ?_, ?_⟩
  · intro m r ha htr
    unfold resolveRole
    rw [ha]
    simp [otruthy, htr]
  · intro m ha
    unfold resolveRole
    simp [ha]
  · intro m ps hp
    unfold resolveText
    rw [hp]
  · intro m hm
    unfold resolveText
    unfold hasPartsArr at hm
    split at hm
    · cases hm
    · rfl

/-- Closed instance of `c7_role_text_resolution`: precedence of `author.role`
and the `parts` join on a concrete message. -/
theorem c7_witness :
    resolveRole (Json.obj [("author", .obj [("role", .str "assistant")]),
        ("role", .str "user")]) = some (.str "assistant") ∧
    resolveText (Json.obj [("content", .obj [("parts", .arr [.str "a", .str "b"])])])
      = some (.str (jsJoin "\n\n" [.str "a", .str "b"])) :=
  ⟨c7_role_text_resolution.1 _ (.str "assistant") rfl rfl,
   c7_role_text_resolution.2.2.1 _ [.str "a", .str "b"] rfl⟩

/-- C7 counterexample: a two-element `parts` list `["a", "b"]` is joined to
`"a\n\nb"` (a blank line), not the `"a\nb"` a newline-separated join would
produce. -/
theorem c7_counterexample :
    extractTurnsFromPossibleJSON jParts = [⟨.str "user", "a\n\nb"⟩] ∧
    ("a\n\nb" : String) ≠ "a\nb" := by
  constructor
  · rfl
  · decide

/-- Every expansion `escCharL` produces is markup-safe. -/
theorem escCharL_safe (c : Char) : (escCharL c).all escSafeChar = true := by
  unfold escCharL
  split_ifs with h1 h2 h3 h4 h5
  · decide
  · decide
  · decide
  · decide
  · decide
  · have e2 : (c == '<') = false := by simpa using h2
    have e3 : (c == '>') = false := by simpa using h3
    have e4 : (c == '"') = false := by simpa using h4
    have e5 : (c == squote) = false := by simpa using h5
    simp [escSafeChar, e2, e3, e4, e5]

/-- `all` over a flattened map. -/
theorem all_flatten_map (p : Char → Bool) (f : Char → List Char) :
    ∀ l : List Char, ((l.map f).flatten).all p = l.all (fun c => (f c).all p) := by
  intro l
  induction l with
  | nil => rfl
  | cons c cs ih => simp [List.all_append, ih]

/-- An `escCharL` expansion of a non-newline character contains no newline. -/
theorem escCharL_no_nl (c : Char) (hc : (c == '\n') = false) :
    (escCharL c).all (fun x => !(x == '\n')) = true := by
  unfold escCharL
  split_ifs
  · decide
  · decide
  · decide
  · decide
  · decide
  · simp [hc]

/-- `replaceNlL` is the identity on newline-free lists. -/
theorem replaceNl_id : ∀ l : List Char, l.all (fun c => !(c == '\n')) = true →
    replaceNlL l = l := by
  intro l
  induction l with
  | nil => intro _; rfl
  | cons c cs ih =>
    intro h
    rw [List.all_cons] at h
    have hc := Bool.and_elim_left h
    have hcs := Bool.and_elim_right h
    simp only [replaceNlL, List.map_cons, List.flatten_cons]
    rw [if_neg (by simpa using hc)]
    have := ih hcs
    simp only [replaceNlL] at this
    rw [this]
    rfl

/-- Prepending three backticks always splits off a segment. -/
theorem splitTicks_triple (l : List Char) :
    splitTicks (btick :: btick :: btick :: l) = [] :: splitTicks l := by
  cases l with
  | nil => rfl
  | cons a t =>
    show splitTicks (btick :: btick :: btick :: a :: t) = _
    rw [splitTicks]
    rw [if_pos (by simp [isTripleHead])]

/-- Unfolding `splitTicks` at a non-backtick head. -/
theorem splitTicks_cons_of_not_tick (c : Char) (hc : (c == btick) = false)
    (cs : List Char) :
    splitTicks (c :: cs) = (match splitTicks cs with
      | s :: ss => (c :: s) :: ss
      | [] => [[c]]) := by
  match cs with
  | [] => rfl
  | [d] => rfl
  | d :: e :: rest =>
    rw [splitTicks]
    rw [if_neg (by simp [isTripleHead, hc])]

/-- A backtick-free prefix is absorbed into the first segment. -/
theorem splitTicks_append {a : List Char}
    (ha : a.all (fun c => !(c == btick)) = true) :
    ∀ {l s : List Char} {ss : List (List Char)}, splitTicks l = s :: ss →
      splitTicks (a ++ l) = (a ++ s) :: ss := by
  induction a with
  | nil =>
    intro l s ss h
    simpa using h
  | cons c cs ih =>
    intro l s ss h
    rw [List.all_cons] at ha
    have hc := Bool.and_elim_left ha
    have hcs := Bool.and_elim_right ha
    have hc' : (c == btick) = false := by simpa using hc
    rw [List.cons_append, splitTicks_cons_of_not_tick c hc']
    rw [ih hcs h]
    rfl

/-- C4 (amended): `escapeHtml` output never contains a markup-special
character (`<`, `>`, `"`, apostrophe) — so the escaped title and role labels
cannot inject markup — and the interior of a backtick fence is embedded
through `escapeHtml` inside a `<pre><code>` block; turn content outside code
fences, by contrast, is embedded without escaping (see the counterexample). -/
theorem c4_escaping_amended :
    (∀ s : String, escSafe (escapeHtml s) = true) ∧
    (∀ code : String, noTicks code = true → noNl code = true →
      formatRich ("```" ++ code ++ "```")
        = "<pre><code>" ++ escapeHtml code ++ "</code></pre>") := by
  constructor
  · intro s
    unfold escSafe escapeHtml
    rw [all_flatten_map]
    rw [List.all_eq_true]
    intro c _
    exact escCharL_safe c
  · intro code hbt hnl
    have hticks : ("```" : String).data = [btick, btick, btick] := rfl
    have h0 : splitTicks ([btick, btick, btick] : List Char) = [[], []] := by
      rw [splitTicks_triple]
      rfl
    have h1 : splitTicks (code.data ++ [btick, btick, btick]) = (code.data ++ []) :: [[]] :=
      splitTicks_append hbt h0
    rw [List.append_nil] at h1
    have h2 : splitTicks (("```" ++ code ++ "```").data) = [[], code.data, []] := by
      have hd : ("```" ++ code ++ "```").data
          = btick :: btick :: btick :: (code.data ++ [btick, btick, btick]) := by
        simp only [String.data_append, hticks, List.append_assoc, List.cons_append,
          List.nil_append]
        rfl
      rw [hd, splitTicks_triple, h1]
    have h3 : joinFence [[], code.data, []] = wrapCode code.data := by
      show [] ++ wrapCode code.data ++ joinFence [[]] = wrapCode code.data
      simp [joinFence]
    have h4 : (wrapCode code.data).all (fun c => !(c == '\n')) = true := by
      unfold wrapCode
      rw [List.all_append, List.all_append]
      refine Bool.and_eq_true_iff.2 ⟨Bool.and_eq_true_iff.2 ⟨by decide, ?_⟩, by decide⟩
      rw [all_flatten_map]
      rw [List.all_eq_true]
      intro c hcm
      apply escCharL_no_nl
      have := (List.all_eq_true.1 hnl) c hcm
      simpa using this
    apply String.ext
    show replaceNlL (joinFence (splitTicks (("```" ++ code ++ "```").data))) = _
    rw [h2, h3, replaceNl_id _ h4]
    show wrapCode code.data = ("<pre><code>" ++ escapeHtml code ++ "</code></pre>").data
    unfold wrapCode
    simp [String.data_append, escapeHtml]

/-- Closed instance of `c4_escaping_amended`: safety of an escaped string and
the escaped embedding of a concrete fence body. -/
theorem c4_witness :
    escSafe (escapeHtml "<i>") = true ∧
    formatRich ("```" ++ "co<de" ++ "```")
      = "<pre><code>" ++ escapeHtml "co<de" ++ "</code></pre>" :=
  ⟨c4_escaping_amended.1 "<i>", c4_escaping_amended.2 "co<de" rfl rfl⟩

/-- C4 counterexample: a turn whose content lies outside any code fence is
embedded into the PDF markup verbatim — `turnDiv` leaves `<i>inj</i>`
unescaped, where escaping would have produced `&lt;i&gt;inj&lt;/i&gt;`. -/
theorem c4_counterexample :
    turnDiv (Json.obj [("role", .str "user"), ("content", .str "<i>inj</i>")])
      = "<div class=\"turn\"><div class=\"role\">user</div><div class=\"bubble\"><i>inj</i></div></div>" ∧
    escapeHtml "<i>inj</i>" = "&lt;i&gt;inj&lt;/i&gt;" ∧
    ("<i>inj</i>" : String) ≠ "&lt;i&gt;inj&lt;/i&gt;" := by
  refine ⟨rfl, rfl, ?_⟩
  decide

/-- An alphanumeric slug character is not a hyphen. -/
theorem slugChar_ne_hyphen {c : Char} (hc : isSlugChar c = true) : (c == '-') = false := by
  by_cases h : c = '-'
  · subst h
    exact absurd hc (by decide)
  · simpa using h

/-- The collapse pass emits only slug characters and hyphens. -/
theorem collapse_skip_all (l : List Char) :
    (collapseRuns l).all slugOk = true ∧ (skipRun l).all slugOk = true := by
  induction l with
  | nil => exact ⟨rfl, rfl⟩
  | cons c cs ih =>
    by_cases hc : isSlugChar c = true
    · constructor
      · simp [collapseRuns, hc, slugOk, ih.1]
      · simp [skipRun, hc, slugOk, ih.1]
    · have hc' : isSlugChar c = false := by simpa using hc
      constructor
      · simp [collapseRuns, hc', slugOk, ih.2]
      · simp [skipRun, hc', ih.2]

/-- `skipRun` output never starts with a hyphen. -/
theorem skipRun_head (l : List Char) : headNotHyphen (skipRun l) = true := by
  induction l with
  | nil => rfl
  | cons c cs ih =>
    by_cases hc : isSlugChar c = true
    · simp [skipRun, hc, headNotHyphen, slugChar_ne_hyphen hc]
    · have hc' : isSlugChar c = false := by simpa using hc
      simp [skipRun, hc', ih]

/-- Prepending a non-hyphen preserves hyphen-run freedom. -/
theorem noDouble_cons_of_ne {c : Char} (hc : (c == '-') = false) {l : List Char}
    (h : noDoubleHyphen l = true) : noDoubleHyphen (c :: l) = true := by
  cases l with
  | nil => rfl
  | cons b bs => simp [noDoubleHyphen, hc, h]

/-- Prepending a hyphen to a hyphen-headless list preserves hyphen-run
freedom. -/
theorem noDouble_cons_hyphen {l : List Char} (hh : headNotHyphen l = true)
    (h : noDoubleHyphen l = true) : noDoubleHyphen ('-' :: l) = true := by
  cases l with
  | nil => rfl
  | cons b bs =>
    have hb : (b == '-') = false := by simpa [headNotHyphen] using hh
    simp [noDoubleHyphen, hb, h]

/-- The collapse pass never emits two adjacent hyphens. -/
theorem collapse_skip_noDouble (l : List Char) :
    noDoubleHyphen (collapseRuns l) = true ∧ noDoubleHyphen (skipRun l) = true := by
  induction l with
  | nil => exact ⟨rfl, rfl⟩
  | cons c cs ih =>
    by_cases hc : isSlugChar c = true
    · constructor
      · simp only [collapseRuns, hc, if_true]
        exact noDouble_cons_of_ne (slugChar_ne_hyphen hc) ih.1
      · simp only [skipRun, hc, if_true]
        exact noDouble_cons_of_ne (slugChar_ne_hyphen hc) ih.1
    · have hc' : isSlugChar c = false := by simpa using hc
      constructor
      · simp only [collapseRuns, hc', Bool.false_eq_true, if_false]
        exact noDouble_cons_hyphen (skipRun_head cs) ih.2
      · simp only [skipRun, hc', Bool.false_eq_true, if_false]
        exact ih.2

/-- Hyphen-run freedom passes to the tail. -/
theorem noDouble_tail {c : Char} {l : List Char}
    (h : noDoubleHyphen (c :: l) = true) : noDoubleHyphen l = true := by
  cases l with
  | nil => rfl
  | cons b bs =>
    simp only [noDoubleHyphen, Bool.and_eq_true] at h
    exact h.2

/-- Removing the leading hyphen leaves a hyphen-headless list. -/
theorem dropLead_head {l : List Char} (h : noDoubleHyphen l = true) :
    headNotHyphen (dropLeadHyphen l) = true := by
  cases l with
  | nil => rfl
  | cons c cs =>
    by_cases hc : (c == '-') = true
    · simp only [dropLeadHyphen, hc, if_true]
      cases cs with
      | nil => rfl
      | cons b bs =>
        have hcb : c = '-' := by simpa using hc
        subst hcb
        simp only [noDoubleHyphen, Bool.and_eq_true] at h
        have hb : (b == '-') = false := by
          have := h.1
          simp at this
          simpa using this
        simp [headNotHyphen, hb]
    · have hc' : (c == '-') = false := by simpa using hc
      simp [dropLeadHyphen, hc', headNotHyphen]

/-- `dropLeadHyphen` preserves hyphen-run freedom. -/
theorem dropLead_noDouble {l : List Char} (h : noDoubleHyphen l = true) :
    noDoubleHyphen (dropLeadHyphen l) = true := by
  cases l with
  | nil => rfl
  | cons c cs =>
    by_cases hc : (c == '-') = true
    · simp only [dropLeadHyphen, hc, if_true]
      exact noDouble_tail h
    · have hc' : (c == '-') = false := by simpa using hc
      simpa [dropLeadHyphen, hc'] using h

/-- `dropLeadHyphen` preserves a character-level invariant. -/
theorem dropLead_all (p : Char → Bool) {l : List Char} (h : l.all p = true) :
    (dropLeadHyphen l).all p = true := by
  cases l with
  | nil => rfl
  | cons c cs =>
    rw [List.all_cons, Bool.and_eq_true] at h
    by_cases hc : (c == '-') = true
    · simp only [dropLeadHyphen, hc, if_true]
      exact h.2
    · have hc' : (c == '-') = false := by simpa using hc
      simp [dropLeadHyphen, hc', h.1, h.2]

/-- `dropTrailHyphen` preserves a character-level invariant. -/
theorem dropTrail_all (p : Char → Bool) : ∀ l : List Char, l.all p = true →
    (dropTrailHyphen l).all p = true := by
  intro l
  induction l with
  | nil => intro _; rfl
  | cons c cs ih =>
    intro h
    rw [List.all_cons, Bool.and_eq_true] at h
    cases cs with
    | nil =>
      by_cases hc : (c == '-') = true
      · simp [dropTrailHyphen, hc]
      · have hc' : (c == '-') = false := by simpa using hc
        simp [dropTrailHyphen, hc', h.1]
    | cons d ds =>
      simp only [dropTrailHyphen, List.all_cons, Bool.and_eq_true]
      exact ⟨h.1, ih h.2⟩

/-- An empty `dropTrailHyphen` of a cons means the list was a lone hyphen. -/
theorem dropTrail_nil_cases {d : Char} {cs : List Char}
    (h : dropTrailHyphen (d :: cs) = []) : cs = [] ∧ d = '-' := by
  cases cs with
  | nil =>
    by_cases hd : (d == '-') = true
    · exact ⟨rfl, by simpa using hd⟩
    · have hd' : (d == '-') = false := by simpa using hd
      simp [dropTrailHyphen, hd'] at h
  | cons e es => simp [dropTrailHyphen] at h

/-- `dropTrailHyphen` of a cons keeps the head or empties the list. -/
theorem dropTrail_head_val (d : Char) (cs : List Char) :
    dropTrailHyphen (d :: cs) = [] ∨ ∃ t, dropTrailHyphen (d :: cs) = d :: t := by
  cases cs with
  | nil =>
    by_cases hd : (d == '-') = true
    · left
      simp [dropTrailHyphen, hd]
    · right
      have hd' : (d == '-') = false := by simpa using hd
      exact ⟨[], by simp [dropTrailHyphen, hd']⟩
  | cons e es => exact Or.inr ⟨dropTrailHyphen (e :: es), rfl⟩

/-- `dropTrailHyphen` preserves hyphen-headlessness. -/
theorem dropTrail_head {l : List Char} (h : headNotHyphen l = true) :
    headNotHyphen (dropTrailHyphen l) = true := by
  cases l with
  | nil => rfl
  | cons c cs =>
    cases cs with
    | nil =>
      by_cases hc : (c == '-') = true
      · simp [dropTrailHyphen, hc, headNotHyphen]
      · have hc' : (c == '-') = false := by simpa using hc
        simp [dropTrailHyphen, hc', headNotHyphen]
    | cons d ds =>
      simpa [dropTrailHyphen, headNotHyphen] using h

/-- `dropTrailHyphen` preserves hyphen-run freedom. -/
theorem dropTrail_noDouble : ∀ {l : List Char}, noDoubleHyphen l = true →
    noDoubleHyphen (dropTrailHyphen l) = true := by
  intro l
  induction l with
  | nil => intro _; rfl
  | cons c cs ih =>
    intro h
    cases cs with
    | nil =>
      by_cases hc : (c == '-') = true
      · simp [dropTrailHyphen, hc, noDoubleHyphen]
      · have hc' : (c == '-') = false := by simpa using hc
        simp [dropTrailHyphen, hc', noDoubleHyphen]
    | cons d ds =>
      have hstep : noDoubleHyphen (d :: ds) = true := noDouble_tail h
      have hcd : (c == '-' && d == '-') = false := by
        have he : noDoubleHyphen (c :: d :: ds)
            = (!(c == '-' && d == '-') && noDoubleHyphen (d :: ds)) := rfl
        rw [he, Bool.and_eq_true] at h
        have hnn := h.1
        cases hq : (c == '-' && d == '-') with
        | false => rfl
        | true =>
          rw [hq] at hnn
          simp at hnn
      have hX := ih hstep
      rcases dropTrail_head_val d ds with hnil | ⟨t, ht⟩
      · simp [dropTrailHyphen, hnil, noDoubleHyphen]
      · rw [ht] at hX
        have hgoal : noDoubleHyphen (c :: d :: t) = true := by
          show (!(c == '-' && d == '-') && noDoubleHyphen (d :: t)) = true
          rw [hcd, hX]
          rfl
        simpa [dropTrailHyphen, ht] using hgoal
    
/-- `dropTrailHyphen` on a hyphen-run-free list never ends with a hyphen. -/
theorem dropTrail_last : ∀ {l : List Char}, noDoubleHyphen l = true →
    lastNotHyphen (dropTrailHyphen l) = true := by
  intro l
  induction l with
  | nil => intro _; rfl
  | cons c cs ih =>
    intro h
    cases cs with
    | nil =>
      by_cases hc : (c == '-') = true
      · simp [dropTrailHyphen, hc, lastNotHyphen]
      · have hc' : (c == '-') = false := by simpa using hc
        simp [dropTrailHyphen, hc', lastNotHyphen]
    | cons d ds =>
      have hstep : noDoubleHyphen (d :: ds) = true := noDouble_tail h
      have hX := ih hstep
      cases hY : dropTrailHyphen (d :: ds) with
      | nil =>
        rcases dropTrail_nil_cases hY with ⟨hds, hd⟩
        subst hds
        subst hd
        have hcne : (c == '-') = false := by
          simp only [noDoubleHyphen, Bool.and_eq_true] at h
          simpa using h.1
        simp [dropTrailHyphen, hY, lastNotHyphen, hcne]
      | cons e t =>
        have : dropTrailHyphen (c :: d :: ds) = c :: e :: t := by
          simp [dropTrailHyphen, hY]
        rw [this]
        show lastNotHyphen (e :: t) = true
        rw [← hY]
        exact hX

/-- C8 (amended): `slug` lower-cases, collapses every run of non-alphanumeric
characters to a single hyphen, and trims one leading/trailing hyphen — so its
output consists only of `[a-z0-9-]`, has no adjacent hyphens, and neither
starts nor ends with a hyphen; but the `"conversation"` fallback applies only
when the input title is the empty string, before slugification: a non-empty
all-punctuation title such as `"!!!"` slugifies to the empty string (its PDF
filename becomes `".pdf"`), it does not fall back. -/
theorem c8_slug_amended :
    slug "" = "conversation" ∧ slug "!!!" = "" ∧
    (∀ s : String,
      ((slug s).data.all slugOk && noDoubleHyphen (slug s).data
        && headNotHyphen (slug s).data && lastNotHyphen (slug s).data) = true) := by
  refine ⟨rfl, rfl, ?_⟩
  intro s
  have hdata : (slug s).data
      = dropTrailHyphen (dropLeadHyphen (collapseRuns
          (((if s == "" then "conversation" else s)).data.map asciiLowerChar))) := rfl
  rw [hdata]
  have h1 := (collapse_skip_all (((if s == "" then "conversation" else s)).data.map asciiLowerChar)).1
  have h2 := (collapse_skip_noDouble (((if s == "" then "conversation" else s)).data.map asciiLowerChar)).1
  have h3 := dropLead_all slugOk h1
  have h4 := dropLead_noDouble h2
  have h5 := dropLead_head h2
  have hall := dropTrail_all slugOk _ h3
  have hnd := dropTrail_noDouble h4
  have hhd := dropTrail_head h5
  have hlast := dropTrail_last h4
  rw [hall, hnd, hhd, hlast]
  rfl

/-- C8 counterexample: the punctuation-only title `"!!!"` yields the filename
`".pdf"`, not the `"conversation.pdf"` the claimed post-slugification
fallback would give. -/
theorem c8_counterexample :
    pdfFilename "!!!" = ".pdf" ∧ (".pdf" : String) ≠ "conversation.pdf" := by
  constructor
  · rfl
  · decide

end ChatExport
